import Mathlib

/-!
Verification of the record-to-geometry merge-and-index procedure
(`RecordMerger`, the logic behind `gv.Shape.from_records` as used in
`doc/Geometries.ipynb`).  The repository ships only the notebook that
calls the merge; the merge itself is therefore modelled from the
specification, faithfully following its data model (§3), contract and
algorithm (§4.1) and error taxonomy (§7).
-/

/-- Modelled from the spec: a scalar value, as found in record attributes
and dataset cells (field names map to scalars; the examples use strings
such as geographic codes and numbers such as vote shares). -/
inductive Scalar where
  | str : String → Scalar
  | num : Int → Scalar
deriving DecidableEq

/-- Modelled from the spec: a mapping from field name to scalar, realised
as an association list; lookup returns the first binding of a name. -/
abbrev Attrs := List (String × Scalar)

/-- Look a field name up in an attribute mapping. -/
def lookupAttr (a : Attrs) (name : String) : Option Scalar :=
  (a.find? (fun p => p.1 == name)).map (fun p => p.2)

/-- Modelled from the spec: a GeometryRecord is an immutable pair of an
opaque geometry handle and an attribute mapping.  The handle is opaque to
the merger, so it is represented by a bare natural number. -/
structure GeometryRecord where
  geom : Nat
  attrs : Attrs
deriving DecidableEq

/-- Modelled from the spec: a Dataset is an ordered collection of rows
(each a mapping from column name to scalar) together with a declared set
of column names (its dimensions). -/
structure Dataset where
  columns : List String
  rows : List Attrs
deriving DecidableEq

/-- Modelled from the spec: a JoinSpec is either a single name used on
both sides or an explicit mapping from record attribute name to dataset
column name. -/
inductive JoinSpec where
  | single : String → JoinSpec
  | mapped : String → String → JoinSpec
deriving DecidableEq

/-- The record-side key name a JoinSpec resolves to. -/
def JoinSpec.recordKey : JoinSpec → String
  | .single n => n
  | .mapped r _ => r

/-- The dataset-side column name a JoinSpec resolves to. -/
def JoinSpec.datasetKey : JoinSpec → String
  | .single n => n
  | .mapped _ d => d

/-- Modelled from the spec: a MergedEntry is the result tuple
(index, geometry, value-or-missing, attributes). -/
structure MergedEntry where
  index : List Scalar
  geom : Nat
  value : Option Scalar
  attrs : Attrs
deriving DecidableEq

/-- Modelled from the spec: the explicit, uniformly applied policy for a
record whose join key has no match — skip with a collected warning, or
abort the whole merge. -/
inductive MissPolicy where
  | skip : MissPolicy
  | abort : MissPolicy
deriving DecidableEq

/-- Modelled from the spec: warnings collected alongside a (possibly
partial) result — a `JoinMiss` referencing the missed record's position,
or a `DuplicateIndex` naming an index tuple shared by two entries. -/
inductive MergeWarning where
  | joinMiss : Nat → MergeWarning
  | duplicateIndex : List Scalar → MergeWarning
deriving DecidableEq

/-- Modelled from the spec: fatal merge outcomes — `MissingColumn`
(pre-flight validation failure) and `JoinMiss` under the abort policy. -/
inductive MergeError where
  | missingColumn : String → MergeError
  | joinMiss : Nat → MergeError
deriving DecidableEq

/-- Modelled from the spec (§4.1 step 1): the dataset row matched for key
`k` — dataset rows are scanned in iteration order and a later row with
the same join-column value overwrites an earlier one (last-write-wins). -/
def findRow (rows : List Attrs) (dkey : String) (k : Scalar) : Option Attrs :=
  rows.foldl (fun acc row => if lookupAttr row dkey = some k then some row else acc) none

/-- Modelled from the spec (§4.1 step 4): the union of record attributes
and the matched dataset row, with the dataset row's values taking
precedence whenever the two sides share a name. -/
def unionAttrs (recAttrs rowAttrs : Attrs) : Attrs :=
  rowAttrs ++ recAttrs.filter (fun p => (lookupAttr rowAttrs p.1).isNone)

/-- Modelled from the spec (§4.1 step 4): the index of a produced entry —
the tuple of the requested index-field values drawn from the matched
dataset row, or the positional counter when no index fields were
requested. -/
def indexTuple (ix : Option (List String)) (pos : Nat) (row : Attrs) : List Scalar :=
  match ix with
  | none => [Scalar.num pos]
  | some fs => fs.map (fun f => (lookupAttr row f).getD (Scalar.num 0))

/-- Modelled from the spec (§4.1 step 4): the MergedEntry built for the
record at input position `pos` once row `row` has been matched: the index
tuple, the record's geometry, the row's value-field entry (absent when no
value field was requested), and the dataset-precedence attribute union. -/
def mkEntry (v : Option String) (ix : Option (List String)) (pos : Nat)
    (r : GeometryRecord) (row : Attrs) : MergedEntry :=
  { index := indexTuple ix pos row
    geom := r.geom
    value := v.bind (lookupAttr row)
    attrs := unionAttrs r.attrs row }

/-- Modelled from the spec (§4.1 steps 2–4): the outcome of the join step
for the record at position `pos` — `none` when the record's join key is
absent or matches no dataset row, otherwise the constructed entry. -/
def entryFor (d : Dataset) (j : JoinSpec) (v : Option String)
    (ix : Option (List String)) (pos : Nat) (r : GeometryRecord) : Option MergedEntry :=
  match lookupAttr r.attrs j.recordKey with
  | none => none
  | some k => (findRow d.rows j.datasetKey k).map (mkEntry v ix pos r)

/-- Whether a record's join key has a matching dataset row. -/
def recMatches (d : Dataset) (j : JoinSpec) (r : GeometryRecord) : Bool :=
  match lookupAttr r.attrs j.recordKey with
  | none => false
  | some k => (findRow d.rows j.datasetKey k).isSome

/-- Modelled from the spec (§4.1 pre-flight, §7): the declared
`value_field` and `index_fields` names absent from the dataset's columns;
a non-empty result makes the merge fail with `MissingColumn` before any
join step. -/
def missingColumns (d : Dataset) (v : Option String)
    (ix : Option (List String)) : List String :=
  (match v with
    | none => []
    | some name => if name ∈ d.columns then [] else [name]) ++
  (match ix with
    | none => []
    | some fs => fs.filter (fun f => decide (f ∉ d.columns)))

/-- The index tuples occurring at two distinct positions of the list
(each reported once, at its first occurrence). -/
def dupIndexes : List (List Scalar) → List (List Scalar)
  | [] => []
  | ixv :: rest => (if ixv ∈ rest then [ixv] else []) ++ dupIndexes rest

/-- Modelled from the spec (§4.1 steps 2–5): the merge loop over the
input records in original order, carrying the positional counter; on a
miss the skip policy omits the record and collects a `JoinMiss` warning
at its position, while the abort policy fails the whole merge. -/
def mergeGo (d : Dataset) (j : JoinSpec) (v : Option String)
    (ix : Option (List String)) (policy : MissPolicy) :
    Nat → List GeometryRecord → Except MergeError (List MergedEntry × List MergeWarning)
  | _, [] => .ok ([], [])
  | pos, r :: rest =>
    match entryFor d j v ix pos r with
    | some e =>
      match mergeGo d j v ix policy (pos + 1) rest with
      | .ok (es, ws) => .ok (e :: es, ws)
      | .error err => .error err
    | none =>
      match policy with
      | .abort => .error (.joinMiss pos)
      | .skip =>
        match mergeGo d j v ix policy (pos + 1) rest with
        | .ok (es, ws) => .ok (es, .joinMiss pos :: ws)
        | .error err => .error err

/-- Modelled from the spec (§4.1): the RecordMerger contract.  Pre-flight
validation fails with `MissingColumn` before any join step; otherwise the
records are merged in order and `DuplicateIndex` warnings are appended
for every index tuple shared by two produced entries. -/
def merge (records : List GeometryRecord) (d : Dataset) (j : JoinSpec)
    (v : Option String) (ix : Option (List String)) (policy : MissPolicy) :
    Except MergeError (List MergedEntry × List MergeWarning) :=
  match missingColumns d v ix with
  | c :: _ => .error (.missingColumn c)
  | [] =>
    match mergeGo d j v ix policy 0 records with
    | .ok (es, ws) =>
      .ok (es, ws ++ (dupIndexes (es.map MergedEntry.index)).map MergeWarning.duplicateIndex)
    | .error err => .error err

/-- Records paired with their input positions, starting at `n`. -/
def indexed (n : Nat) : List GeometryRecord → List (Nat × GeometryRecord)
  | [] => []
  | r :: rest => (n, r) :: indexed (n + 1) rest

section Examples

/-- The spec's worked example (§8): first record, geometry `G1 = 1`. -/
def exRec1 : GeometryRecord := ⟨1, [("code", Scalar.str "A")]⟩

/-- The spec's worked example (§8): second record, geometry `G2 = 2`. -/
def exRec2 : GeometryRecord := ⟨2, [("code", Scalar.str "B")]⟩

/-- The spec's worked example (§8): the dataset row with code "A". -/
def exRow1 : Attrs := [("code", Scalar.str "A"), ("vote", Scalar.num 30)]

/-- The spec's worked example (§8): the dataset row with code "B". -/
def exRow2 : Attrs := [("code", Scalar.str "B"), ("vote", Scalar.num 70)]

/-- The spec's worked example (§8): the referendum-style dataset. -/
def exDataset : Dataset := ⟨["code", "vote"], [exRow1, exRow2]⟩

/-- The entry the worked example expects for the first record. -/
def exEntry1 : MergedEntry :=
  ⟨[Scalar.num 0], 1, some (Scalar.num 30), exRow1⟩

/-- The entry the worked example expects for the second record. -/
def exEntry2 : MergedEntry :=
  ⟨[Scalar.num 1], 2, some (Scalar.num 70), exRow2⟩

example :
    merge [exRec1, exRec2] exDataset (JoinSpec.single "code")
      (some "vote") none MissPolicy.skip =
    Except.ok ([exEntry1, exEntry2], []) := by
  rfl

end Examples

section Lemmas

variable {d : Dataset} {j : JoinSpec} {v : Option String} {ix : Option (List String)}

/-- Whether the join step produces an entry does not depend on the
positional counter, only on the record and the dataset. -/
lemma entryFor_isSome (pos : Nat) (r : GeometryRecord) :
    (entryFor d j v ix pos r).isSome = recMatches d j r := by
  unfold entryFor recMatches
  cases lookupAttr r.attrs j.recordKey with
  | none => rfl
  | some k => simp

lemma indexed_cons (n : Nat) (r : GeometryRecord) (rest : List GeometryRecord) :
    indexed n (r :: rest) = (n, r) :: indexed (n + 1) rest := rfl

lemma indexed_length (n : Nat) (recs : List GeometryRecord) :
    (indexed n recs).length = recs.length := by
  induction recs generalizing n with
  | nil => rfl
  | cons r rest ih => simp [indexed, ih]

lemma indexed_get (n : Nat) (recs : List GeometryRecord) (i : Nat)
    (h : i < (indexed n recs).length) (h' : i < recs.length) :
    (indexed n recs).get ⟨i, h⟩ = (n + i, recs.get ⟨i, h'⟩) := by
  induction recs generalizing n i with
  | nil => exact absurd h' (by simp)
  | cons r rest ih =>
    cases i with
    | zero => simp [indexed]
    | succ i =>
      have hi : i < (indexed (n + 1) rest).length := by
        simpa [indexed] using h
      have hi' : i < rest.length := by simpa using h'
      calc (indexed n (r :: rest)).get ⟨i + 1, h⟩
          = (indexed (n + 1) rest).get ⟨i, hi⟩ := rfl
        _ = (n + 1 + i, rest.get ⟨i, hi'⟩) := ih (n + 1) i hi hi'
        _ = (n + (i + 1), (r :: rest).get ⟨i + 1, h'⟩) := by
            simp [Nat.add_assoc, Nat.add_comm 1 i]

lemma indexed_mem_get (n : Nat) (recs : List GeometryRecord) (i : Nat)
    (h' : i < recs.length) : (n + i, recs.get ⟨i, h'⟩) ∈ indexed n recs := by
  have h : i < (indexed n recs).length := by
    simpa [indexed_length] using h'
  have := indexed_get n recs i h h'
  exact this ▸ (indexed n recs).get_mem i h

/-- Characterization of the merge loop under the skip policy: the
entries are the successful join outcomes of the position-indexed records,
and the warnings mark the positions of the misses, both in order. -/
lemma mergeGo_skip_eq (n : Nat) (recs : List GeometryRecord) :
    mergeGo d j v ix MissPolicy.skip n recs =
      .ok ((indexed n recs).filterMap (fun p => entryFor d j v ix p.1 p.2),
           (indexed n recs).filterMap (fun p =>
             match entryFor d j v ix p.1 p.2 with
             | some _ => none
             | none => some (MergeWarning.joinMiss p.1))) := by
  induction recs generalizing n with
  | nil => rfl
  | cons r rest ih =>
    rw [indexed_cons]
    cases he : entryFor d j v ix n r with
    | some e => simp [mergeGo, he, ih (n + 1)]
    | none => simp [mergeGo, he, ih (n + 1)]

/-- When every record matches, the merge loop succeeds under either
policy, produces one entry per record and collects no warnings. -/
lemma mergeGo_allMatch (policy : MissPolicy) (n : Nat)
    (recs : List GeometryRecord)
    (h : ∀ r ∈ recs, recMatches d j r = true) :
    mergeGo d j v ix policy n recs =
      .ok ((indexed n recs).filterMap (fun p => entryFor d j v ix p.1 p.2), []) := by
  induction recs generalizing n with
  | nil => rfl
  | cons r rest ih =>
    have hr : (entryFor d j v ix n r).isSome := by
      rw [entryFor_isSome]
      exact h r (by simp)
    rw [indexed_cons]
    cases he : entryFor d j v ix n r with
    | none => rw [he] at hr; exact absurd hr (by simp)
    | some e =>
      have ihr := ih (n + 1) (fun r hr => h r (by simp [hr]))
      simp [mergeGo, he, ihr]

/-- Under the abort policy, a successful merge loop means every record
matched. -/
lemma mergeGo_abort_ok (n : Nat) (recs : List GeometryRecord)
    {es : List MergedEntry} {ws : List MergeWarning}
    (h : mergeGo d j v ix MissPolicy.abort n recs = .ok (es, ws)) :
    ∀ r ∈ recs, recMatches d j r = true := by
  induction recs generalizing n es ws with
  | nil => simp
  | cons r rest ih =>
    intro r' hr'
    cases he : entryFor d j v ix n r with
    | none => rw [mergeGo, he] at h; exact absurd h (by simp)
    | some e =>
      rw [mergeGo, he] at h
      cases hrec : mergeGo d j v ix MissPolicy.abort (n + 1) rest with
      | error err => rw [hrec] at h; exact absurd h (by simp)
      | ok p =>
        rcases List.mem_cons.mp hr' with h1 | h1
        · rw [h1, ← @entryFor_isSome d j v ix n r, he]
          rfl
        · exact ih (n + 1) hrec r' h1

/-- Under the abort policy, a record whose join step misses makes the
whole merge loop fail with a `JoinMiss`. -/
lemma mergeGo_abort_miss (n : Nat) (recs : List GeometryRecord)
    (h : ∃ r ∈ recs, recMatches d j r = false) :
    ∃ q, mergeGo d j v ix MissPolicy.abort n recs = .error (.joinMiss q) := by
  induction recs generalizing n with
  | nil => simp at h
  | cons r rest ih =>
    cases he : entryFor d j v ix n r with
    | none => exact ⟨n, by rw [mergeGo, he]⟩
    | some e =>
      have hrmatch : recMatches d j r = true := by
        rw [← @entryFor_isSome d j v ix n r, he]; rfl
      have hrest : ∃ r ∈ rest, recMatches d j r = false := by
        rcases h with ⟨r', hr', hm⟩
        rcases List.mem_cons.mp hr' with h1 | h1
        · rw [h1, hrmatch] at hm; exact absurd hm (by simp)
        · exact ⟨r', h1, hm⟩
      rcases ih (n + 1) hrest with ⟨q, hq⟩
      exact ⟨q, by rw [mergeGo, he, hq]⟩

end Lemmas

section MoreLemmas

variable {d : Dataset} {j : JoinSpec} {v : Option String} {ix : Option (List String)}

lemma findRow_foldl_eq (dkey : String) (k : Scalar) (rows : List Attrs)
    (acc : Option Attrs) :
    rows.foldl (fun a row => if lookupAttr row dkey = some k then some row else a) acc
      = match (rows.filter (fun row => decide (lookupAttr row dkey = some k))).getLast? with
        | some row => some row
        | none => acc := by
  induction rows generalizing acc with
  | nil => rfl
  | cons r rest ih =>
    by_cases hp : lookupAttr r dkey = some k
    · rw [List.foldl_cons, if_pos hp, ih]
      have hf : (r :: rest).filter (fun row => decide (lookupAttr row dkey = some k))
          = r :: rest.filter (fun row => decide (lookupAttr row dkey = some k)) := by
        simp [List.filter_cons, hp]
      rw [hf, List.getLast?_cons]
      cases (rest.filter (fun row => decide (lookupAttr row dkey = some k))).getLast? with
      | some row => rfl
      | none => rfl
    · rw [List.foldl_cons, if_neg hp, ih]
      have hf : (r :: rest).filter (fun row => decide (lookupAttr row dkey = some k))
          = rest.filter (fun row => decide (lookupAttr row dkey = some k)) := by
        simp [List.filter_cons, hp]
      rw [hf]

/-- `findRow` returns the last dataset row (in iteration order) whose
join-column value equals the key: last-write-wins. -/
lemma findRow_eq_getLast (rows : List Attrs) (dkey : String) (k : Scalar) :
    findRow rows dkey k
      = (rows.filter (fun row => decide (lookupAttr row dkey = some k))).getLast? := by
  rw [findRow, findRow_foldl_eq]
  cases (rows.filter (fun row => decide (lookupAttr row dkey = some k))).getLast? with
  | some row => rfl
  | none => rfl

lemma entryFor_of {r : GeometryRecord} {k : Scalar} {row : Attrs} (pos : Nat)
    (hk : lookupAttr r.attrs j.recordKey = some k)
    (hrow : findRow d.rows j.datasetKey k = some row) :
    entryFor d j v ix pos r = some (mkEntry v ix pos r row) := by
  simp [entryFor, hk, hrow]

lemma entryFor_eq_some {pos : Nat} {r : GeometryRecord} {e : MergedEntry}
    (he : entryFor d j v ix pos r = some e) :
    ∃ k row, lookupAttr r.attrs j.recordKey = some k ∧
      findRow d.rows j.datasetKey k = some row ∧ e = mkEntry v ix pos r row := by
  unfold entryFor at he
  cases hk : lookupAttr r.attrs j.recordKey with
  | none => rw [hk] at he; exact absurd he (by simp)
  | some k =>
    rw [hk] at he
    rcases Option.map_eq_some'.mp he with ⟨row, hrow, hmk⟩
    exact ⟨k, row, rfl, hrow, hmk.symm⟩

lemma filterMap_indexed_length (n : Nat) (recs : List GeometryRecord)
    (h : ∀ r ∈ recs, recMatches d j r = true) :
    ((indexed n recs).filterMap (fun p => entryFor d j v ix p.1 p.2)).length
      = recs.length := by
  induction recs generalizing n with
  | nil => rfl
  | cons r rest ih =>
    have hr : (entryFor d j v ix n r).isSome := by
      rw [entryFor_isSome]; exact h r (by simp)
    cases he : entryFor d j v ix n r with
    | none => rw [he] at hr; exact absurd hr (by simp)
    | some e =>
      simp [indexed_cons, List.filterMap_cons, he,
        ih (n + 1) (fun r hr => h r (by simp [hr]))]

lemma filterMap_indexed_get (n : Nat) (recs : List GeometryRecord)
    (h : ∀ r ∈ recs, recMatches d j r = true) (i : Nat)
    (hi : i < ((indexed n recs).filterMap (fun p => entryFor d j v ix p.1 p.2)).length)
    (hi' : i < recs.length) :
    some (((indexed n recs).filterMap (fun p => entryFor d j v ix p.1 p.2)).get ⟨i, hi⟩)
      = entryFor d j v ix (n + i) (recs.get ⟨i, hi'⟩) := by
  induction recs generalizing n i with
  | nil => exact absurd hi' (by simp)
  | cons r rest ih =>
    have hr : (entryFor d j v ix n r).isSome := by
      rw [entryFor_isSome]; exact h r (by simp)
    cases he : entryFor d j v ix n r with
    | none => rw [he] at hr; exact absurd hr (by simp)
    | some e =>
      have hrest : ∀ r ∈ rest, recMatches d j r = true :=
        fun r hr => h r (by simp [hr])
      cases i with
      | zero =>
        have hcons : (indexed n (r :: rest)).filterMap
              (fun p => entryFor d j v ix p.1 p.2)
            = e :: (indexed (n + 1) rest).filterMap
              (fun p => entryFor d j v ix p.1 p.2) := by
          simp [indexed_cons, List.filterMap_cons, he]
        have h0 : 0 < (e :: (indexed (n + 1) rest).filterMap
            (fun p => entryFor d j v ix p.1 p.2)).length := by simp
        calc some (((indexed n (r :: rest)).filterMap
              (fun p => entryFor d j v ix p.1 p.2)).get ⟨0, hi⟩)
            = some e := by rw [List.get_of_eq hcons]; rfl
          _ = entryFor d j v ix (n + 0) ((r :: rest).get ⟨0, hi'⟩) := by
              rw [← he]; rfl
      | succ i' =>
        have hcons : (indexed n (r :: rest)).filterMap
              (fun p => entryFor d j v ix p.1 p.2)
            = e :: (indexed (n + 1) rest).filterMap
              (fun p => entryFor d j v ix p.1 p.2) := by
          simp [indexed_cons, List.filterMap_cons, he]
        have hi2 : i' < ((indexed (n + 1) rest).filterMap
            (fun p => entryFor d j v ix p.1 p.2)).length := by
          have := hi
          rw [hcons] at this
          simpa using this
        have hi2' : i' < rest.length := by simpa using hi'
        calc some (((indexed n (r :: rest)).filterMap
              (fun p => entryFor d j v ix p.1 p.2)).get ⟨i' + 1, hi⟩)
            = some (((indexed (n + 1) rest).filterMap
              (fun p => entryFor d j v ix p.1 p.2)).get ⟨i', hi2⟩) := by
              rw [List.get_of_eq hcons]
              rfl
          _ = entryFor d j v ix (n + 1 + i') (rest.get ⟨i', hi2'⟩) :=
              ih (n + 1) hrest i' hi2 hi2'
          _ = entryFor d j v ix (n + (i' + 1)) ((r :: rest).get ⟨i' + 1, hi'⟩) := by
              rw [Nat.add_assoc, Nat.add_comm 1 i']
              rfl

lemma filterMap_indexed_geom (n : Nat) (recs : List GeometryRecord) :
    (((indexed n recs).filterMap (fun p => entryFor d j v ix p.1 p.2)).map
        MergedEntry.geom)
      = (recs.filter (recMatches d j)).map GeometryRecord.geom := by
  induction recs generalizing n with
  | nil => rfl
  | cons r rest ih =>
    cases he : entryFor d j v ix n r with
    | none =>
      have hm : recMatches d j r = false := by
        rw [← @entryFor_isSome d j v ix n r, he]; rfl
      simp [indexed_cons, List.filterMap_cons, he, List.filter_cons, hm, ih (n + 1)]
    | some e =>
      have hm : recMatches d j r = true := by
        rw [← @entryFor_isSome d j v ix n r, he]; rfl
      have hg : e.geom = r.geom := by
        rcases entryFor_eq_some he with ⟨k, row, _, _, hmk⟩
        rw [hmk]; rfl
      simp [indexed_cons, List.filterMap_cons, he, List.filter_cons, hm, hg, ih (n + 1)]

lemma mem_dupIndexes (l : List (List Scalar)) (i jx : Nat) (hi : i < l.length)
    (hj : jx < l.length) (hij : i < jx) (heq : l.get ⟨i, hi⟩ = l.get ⟨jx, hj⟩) :
    l.get ⟨i, hi⟩ ∈ dupIndexes l := by
  induction l generalizing i jx with
  | nil => exact absurd hi (by simp)
  | cons x rest ih =>
    cases i with
    | zero =>
      cases jx with
      | zero => exact absurd hij (by simp)
      | succ j' =>
        have hj' : j' < rest.length := by simpa using hj
        have hx : x ∈ rest := by
          have hx0 : (x :: rest).get ⟨0, hi⟩ = x := rfl
          have hxj : (x :: rest).get ⟨j' + 1, hj⟩ = rest.get ⟨j', hj'⟩ := rfl
          rw [hx0] at heq
          rw [hxj] at heq
          exact heq ▸ rest.get_mem j' hj'
        simp [dupIndexes, hx]
    | succ i' =>
      cases jx with
      | zero => exact absurd hij (by simp)
      | succ j' =>
        have hi' : i' < rest.length := by simpa using hi
        have hj' : j' < rest.length := by simpa using hj
        have heq' : rest.get ⟨i', hi'⟩ = rest.get ⟨j', hj'⟩ := heq
        have hmem := ih i' j' hi' hj' (by omega) heq'
        have hstep : ((x :: rest).get ⟨i' + 1, hi⟩ : List Scalar)
            = rest.get ⟨i', hi'⟩ := rfl
        rw [hstep]
        simp only [dupIndexes, List.mem_append]
        exact Or.inr hmem

end MoreLemmas

section MergeLemmas

variable {d : Dataset} {j : JoinSpec} {v : Option String} {ix : Option (List String)}

lemma merge_ok_inv {records : List GeometryRecord} {policy : MissPolicy}
    {es : List MergedEntry} {ws : List MergeWarning}
    (h : merge records d j v ix policy = .ok (es, ws)) :
    missingColumns d v ix = [] ∧
      ∃ ws0, mergeGo d j v ix policy 0 records = .ok (es, ws0) ∧
        ws = ws0 ++ (dupIndexes (es.map MergedEntry.index)).map
          MergeWarning.duplicateIndex := by
  unfold merge at h
  cases hmc : missingColumns d v ix with
  | cons c cs => rw [hmc] at h; exact absurd h (by simp)
  | nil =>
    rw [hmc] at h
    refine ⟨rfl, ?_⟩
    cases hgo : mergeGo d j v ix policy 0 records with
    | error err => rw [hgo] at h; exact absurd h (by simp)
    | ok p =>
      obtain ⟨es0, ws0⟩ := p
      rw [hgo] at h
      simp only [Except.ok.injEq, Prod.mk.injEq] at h
      exact ⟨ws0, by rw [h.1], by rw [← h.2, h.1]⟩

lemma merge_skip_eq (records : List GeometryRecord)
    (hmc : missingColumns d v ix = []) :
    merge records d j v ix MissPolicy.skip =
      .ok ((indexed 0 records).filterMap (fun p => entryFor d j v ix p.1 p.2),
        (indexed 0 records).filterMap (fun p =>
          match entryFor d j v ix p.1 p.2 with
          | some _ => none
          | none => some (MergeWarning.joinMiss p.1)) ++
        (dupIndexes (((indexed 0 records).filterMap
          (fun p => entryFor d j v ix p.1 p.2)).map MergedEntry.index)).map
          MergeWarning.duplicateIndex) := by
  unfold merge
  rw [hmc, mergeGo_skip_eq]

lemma merge_allMatch (records : List GeometryRecord) (policy : MissPolicy)
    (hmc : missingColumns d v ix = [])
    (h : ∀ r ∈ records, recMatches d j r = true) :
    merge records d j v ix policy =
      .ok ((indexed 0 records).filterMap (fun p => entryFor d j v ix p.1 p.2),
        (dupIndexes (((indexed 0 records).filterMap
          (fun p => entryFor d j v ix p.1 p.2)).map MergedEntry.index)).map
          MergeWarning.duplicateIndex) := by
  unfold merge
  rw [hmc, mergeGo_allMatch policy 0 records h]
  rfl

end MergeLemmas

section ClaimTheorems

lemma recMatches_of_parts {d : Dataset} {j : JoinSpec} {r : GeometryRecord}
    {k : Scalar} (hk : lookupAttr r.attrs j.recordKey = some k)
    (hsome : (findRow d.rows j.datasetKey k).isSome = true) :
    recMatches d j r = true := by
  unfold recMatches
  rw [hk]
  exact hsome

/-- C1: for every non-empty record sequence and dataset with the join
column available on both sides, where every record's join key has a
matching dataset row, `merge` succeeds, returns exactly as many entries
as there are input records, and the entries carry the records' geometries
in the original input order. -/
theorem merge_total_length_order (records : List GeometryRecord) (d : Dataset)
    (j : JoinSpec) (v : Option String) (ix : Option (List String))
    (policy : MissPolicy) (_hne : records ≠ [])
    (hmc : missingColumns d v ix = [])
    (hmatch : ∀ r ∈ records, recMatches d j r = true) :
    ∃ es ws, merge records d j v ix policy = .ok (es, ws) ∧
      es.length = records.length ∧
      es.map MergedEntry.geom = records.map GeometryRecord.geom := by
  refine ⟨_, _, merge_allMatch records policy hmc hmatch, ?_, ?_⟩
  · exact filterMap_indexed_length 0 records hmatch
  · rw [filterMap_indexed_geom]
    congr 1
    exact List.filter_eq_self.mpr hmatch

/-- C1 witness: the spec's referendum example merges completely, with two
entries in input order. -/
theorem merge_total_length_order_witness :
    ([exRec1, exRec2] : List GeometryRecord) ≠ [] ∧
    (∀ r ∈ [exRec1, exRec2], recMatches exDataset (JoinSpec.single "code") r = true) ∧
    ∃ es ws, merge [exRec1, exRec2] exDataset (JoinSpec.single "code")
        (some "vote") none MissPolicy.skip = .ok (es, ws) ∧
      es.length = ([exRec1, exRec2] : List GeometryRecord).length ∧
      es.map MergedEntry.geom = [exRec1, exRec2].map GeometryRecord.geom :=
  ⟨by simp, by decide,
    merge_total_length_order [exRec1, exRec2] exDataset (JoinSpec.single "code")
      (some "vote") none MissPolicy.skip (by simp) (by decide) (by decide)⟩

/-- C2: every record that matches a dataset row contributes an entry
whose index is the tuple of requested index-field values drawn from the
matched row (or the positional counter when the index fields are
omitted), whose value is the matched row's value-field entry (absent
when the value field is omitted), and whose attributes are the union of
the record's attributes and the matched row, the row's values taking
precedence on shared names. -/
theorem merge_matched_entry_shape (records : List GeometryRecord) (d : Dataset)
    (j : JoinSpec) (v : Option String) (ix : Option (List String))
    (policy : MissPolicy) (es : List MergedEntry) (ws : List MergeWarning)
    (p : Nat) (hp : p < records.length) (k : Scalar) (row : Attrs)
    (hk : lookupAttr (records.get ⟨p, hp⟩).attrs j.recordKey = some k)
    (hrow : findRow d.rows j.datasetKey k = some row)
    (hok : merge records d j v ix policy = .ok (es, ws)) :
    ∃ e ∈ es,
      e.index = indexTuple ix p row ∧
      e.geom = (records.get ⟨p, hp⟩).geom ∧
      e.value = v.bind (lookupAttr row) ∧
      e.attrs = unionAttrs (records.get ⟨p, hp⟩).attrs row := by
  obtain ⟨hmc, ws0, hgo, hws⟩ := merge_ok_inv hok
  have hes : es = (indexed 0 records).filterMap (fun q => entryFor d j v ix q.1 q.2) := by
    cases policy with
    | skip =>
      rw [mergeGo_skip_eq] at hgo
      exact (by simpa using hgo.symm : _ ∧ _).1
    | abort =>
      have hall := mergeGo_abort_ok 0 records hgo
      rw [mergeGo_allMatch MissPolicy.abort 0 records hall] at hgo
      exact (by simpa using hgo.symm : _ ∧ _).1
  have hmem : ((0 + p : Nat), records.get ⟨p, hp⟩) ∈ indexed 0 records :=
    indexed_mem_get 0 records p hp
  have hmem' : ((p : Nat), records.get ⟨p, hp⟩) ∈ indexed 0 records := by
    simpa using hmem
  have hef : entryFor d j v ix p (records.get ⟨p, hp⟩)
      = some (mkEntry v ix p (records.get ⟨p, hp⟩) row) := entryFor_of p hk hrow
  refine ⟨mkEntry v ix p (records.get ⟨p, hp⟩) row, ?_, rfl, rfl, rfl, rfl⟩
  rw [hes]
  exact List.mem_filterMap.mpr ⟨(p, records.get ⟨p, hp⟩), hmem', hef⟩

/-- C2 witness: the spec's worked example — the first record (geometry
G1 = 1, code "A") yields the entry (index 0, G1, vote 30, merged
attributes). -/
theorem merge_matched_entry_shape_witness :
    lookupAttr exRec1.attrs (JoinSpec.recordKey (JoinSpec.single "code"))
      = some (Scalar.str "A") ∧
    ∃ e ∈ [exEntry1, exEntry2],
      e.index = indexTuple none 0 exRow1 ∧
      e.geom = exRec1.geom ∧
      e.value = (some "vote").bind (lookupAttr exRow1) ∧
      e.attrs = unionAttrs exRec1.attrs exRow1 :=
  ⟨by decide,
    merge_matched_entry_shape [exRec1, exRec2] exDataset (JoinSpec.single "code")
      (some "vote") none MissPolicy.skip [exEntry1, exEntry2] [] 0 (by decide)
      (Scalar.str "A") exRow1 (by decide) (by decide) rfl⟩

/-- C3: when dataset rows share a join-key value, the join step of
`merge` matches the row that comes later in the dataset's iteration
order: the matched row is the last row whose join column carries the
key (last-write-wins). -/
theorem merge_last_write_wins (d : Dataset) (j : JoinSpec) (v : Option String)
    (ix : Option (List String)) (pos : Nat) (r : GeometryRecord) (k : Scalar)
    (hk : lookupAttr r.attrs j.recordKey = some k) :
    entryFor d j v ix pos r =
      ((d.rows.filter (fun row =>
        decide (lookupAttr row j.datasetKey = some k))).getLast?).map
        (mkEntry v ix pos r) := by
  simp [entryFor, hk, findRow_eq_getLast]

/-- C3 witness: with two rows carrying code "A" (votes 30 then 99), the
record with code "A" is matched to the later row (vote 99). -/
theorem merge_last_write_wins_witness :
    lookupAttr exRec1.attrs (JoinSpec.recordKey (JoinSpec.single "code"))
      = some (Scalar.str "A") ∧
    entryFor ⟨["code", "vote"],
        [[("code", Scalar.str "A"), ("vote", Scalar.num 30)],
         [("code", Scalar.str "A"), ("vote", Scalar.num 99)]]⟩
      (JoinSpec.single "code") (some "vote") none 0 exRec1 =
      (((⟨["code", "vote"],
        [[("code", Scalar.str "A"), ("vote", Scalar.num 30)],
         [("code", Scalar.str "A"), ("vote", Scalar.num 99)]]⟩ : Dataset).rows.filter
        (fun row => decide (lookupAttr row
          (JoinSpec.datasetKey (JoinSpec.single "code")) = some (Scalar.str "A")))).getLast?).map
        (mkEntry (some "vote") none 0 exRec1) :=
  ⟨by decide,
    merge_last_write_wins ⟨["code", "vote"],
        [[("code", Scalar.str "A"), ("vote", Scalar.num 30)],
         [("code", Scalar.str "A"), ("vote", Scalar.num 99)]]⟩
      (JoinSpec.single "code") (some "vote") none 0 exRec1 (Scalar.str "A") (by decide)⟩

end ClaimTheorems

section ClaimTheorems2

lemma entryFor_none_of_miss {d : Dataset} {j : JoinSpec} {v : Option String}
    {ix : Option (List String)} {r : GeometryRecord} {k : Scalar} (pos : Nat)
    (hk : lookupAttr r.attrs j.recordKey = some k)
    (hnone : findRow d.rows j.datasetKey k = none) :
    entryFor d j v ix pos r = none := by
  simp [entryFor, hk, hnone]

lemma recMatches_false_of_miss {d : Dataset} {j : JoinSpec} {r : GeometryRecord}
    {k : Scalar} (hk : lookupAttr r.attrs j.recordKey = some k)
    (hnone : findRow d.rows j.datasetKey k = none) :
    recMatches d j r = false := by
  simp [recMatches, hk, hnone]

/-- C4: a record whose join key matches no dataset row is, under the skip
policy, omitted from the output while a `JoinMiss` warning naming its
position is collected and all remaining records are still merged; under
the abort policy the whole merge fails with `JoinMiss` and produces no
output entries at all. -/
theorem merge_join_miss_policies (records : List GeometryRecord) (d : Dataset)
    (j : JoinSpec) (v : Option String) (ix : Option (List String))
    (p : Nat) (hp : p < records.length) (k : Scalar)
    (hmc : missingColumns d v ix = [])
    (hk : lookupAttr (records.get ⟨p, hp⟩).attrs j.recordKey = some k)
    (hnone : findRow d.rows j.datasetKey k = none) :
    (∃ es ws, merge records d j v ix MissPolicy.skip = .ok (es, ws) ∧
      MergeWarning.joinMiss p ∈ ws ∧
      es = (indexed 0 records).filterMap (fun q => entryFor d j v ix q.1 q.2)) ∧
    (∃ q, merge records d j v ix MissPolicy.abort = .error (MergeError.joinMiss q)) := by
  have hef : entryFor d j v ix p (records.get ⟨p, hp⟩) = none :=
    entryFor_none_of_miss p hk hnone
  have hmem : ((p : Nat), records.get ⟨p, hp⟩) ∈ indexed 0 records := by
    simpa using indexed_mem_get 0 records p hp
  constructor
  · refine ⟨_, _, merge_skip_eq records hmc, ?_, rfl⟩
    rw [List.mem_append]
    left
    refine List.mem_filterMap.mpr ⟨(p, records.get ⟨p, hp⟩), hmem, ?_⟩
    rw [hef]
  · have hmiss : ∃ r ∈ records, recMatches d j r = false :=
      ⟨records.get ⟨p, hp⟩, records.get_mem p hp,
        recMatches_false_of_miss hk hnone⟩
    rcases mergeGo_abort_miss 0 records hmiss with ⟨q, hq⟩
    refine ⟨q, ?_⟩
    unfold merge
    rw [hmc, hq]

/-- C4 witness: a record with unmatched code "Z" ahead of the matched
record with code "B": skip keeps the "B" entry and warns at position 0;
abort fails with `JoinMiss`. -/
theorem merge_join_miss_policies_witness :
    lookupAttr (([⟨5, [("code", Scalar.str "Z")]⟩, exRec2] :
        List GeometryRecord).get ⟨0, by decide⟩).attrs
      (JoinSpec.recordKey (JoinSpec.single "code")) = some (Scalar.str "Z") ∧
    ((∃ es ws, merge [⟨5, [("code", Scalar.str "Z")]⟩, exRec2] exDataset
        (JoinSpec.single "code") (some "vote") none MissPolicy.skip = .ok (es, ws) ∧
      MergeWarning.joinMiss 0 ∈ ws ∧
      es = (indexed 0 [⟨5, [("code", Scalar.str "Z")]⟩, exRec2]).filterMap
        (fun q => entryFor exDataset (JoinSpec.single "code") (some "vote") none q.1 q.2)) ∧
    (∃ q, merge [⟨5, [("code", Scalar.str "Z")]⟩, exRec2] exDataset
        (JoinSpec.single "code") (some "vote") none MissPolicy.abort
      = .error (MergeError.joinMiss q))) :=
  ⟨by decide,
    merge_join_miss_policies [⟨5, [("code", Scalar.str "Z")]⟩, exRec2] exDataset
      (JoinSpec.single "code") (some "vote") none 0 (by decide) (Scalar.str "Z")
      (by decide) (by decide) (by decide)⟩

lemma missingColumns_sound (d : Dataset) (v : Option String)
    (ix : Option (List String)) :
    ∀ c ∈ missingColumns d v ix, c ∉ d.columns := by
  intro c hc
  unfold missingColumns at hc
  rcases List.mem_append.mp hc with h1 | h1
  · cases v with
    | none => exact absurd (h1 : c ∈ ([] : List String)) (by simp)
    | some name =>
      have h1' : c ∈ (if name ∈ d.columns then ([] : List String) else [name]) := h1
      by_cases hm : name ∈ d.columns
      · rw [if_pos hm] at h1'
        exact absurd h1' (by simp)
      · rw [if_neg hm] at h1'
        have : c = name := by simpa using h1'
        rw [this]
        exact hm
  · cases ix with
    | none => exact absurd (h1 : c ∈ ([] : List String)) (by simp)
    | some fs =>
      have h1' : c ∈ fs.filter (fun f => decide (f ∉ d.columns)) := h1
      have := List.mem_filter.mp h1'
      simpa using this.2

/-- C5: declaring a value field or an index field that is not among the
dataset's columns makes `merge` fail with `MissingColumn` — for every
record sequence, join spec and policy, so before any join step and with
no partial output. -/
theorem merge_missing_column_fatal (records : List GeometryRecord) (d : Dataset)
    (j : JoinSpec) (v : Option String) (ix : Option (List String))
    (policy : MissPolicy)
    (h : (∃ name, v = some name ∧ name ∉ d.columns) ∨
         (∃ fs f, ix = some fs ∧ f ∈ fs ∧ f ∉ d.columns)) :
    ∃ c, merge records d j v ix policy = .error (MergeError.missingColumn c) ∧
      c ∉ d.columns := by
  have hne : missingColumns d v ix ≠ [] := by
    rcases h with ⟨name, hv, hnm⟩ | ⟨fs, f, hix, hf, hnf⟩
    · rw [hv]
      unfold missingColumns
      intro hcontra
      rcases List.append_eq_nil.mp hcontra with ⟨h1, _⟩
      have h1' : (if name ∈ d.columns then ([] : List String) else [name]) = [] := h1
      rw [if_neg hnm] at h1'
      exact absurd h1' (by simp)
    · rw [hix]
      unfold missingColumns
      intro hcontra
      rcases List.append_eq_nil.mp hcontra with ⟨_, h2⟩
      have h2' : fs.filter (fun f => decide (f ∉ d.columns)) = [] := h2
      have hmem : f ∈ fs.filter (fun f => decide (f ∉ d.columns)) :=
        List.mem_filter.mpr ⟨hf, by simpa using hnf⟩
      rw [h2'] at hmem
      exact absurd hmem (by simp)
  cases hmc : missingColumns d v ix with
  | nil => exact absurd hmc hne
  | cons c cs =>
    refine ⟨c, ?_, missingColumns_sound d v ix c (by rw [hmc]; simp)⟩
    unfold merge
    rw [hmc]

/-- C5 witness: requesting value field "missing" against the referendum
dataset fails with `MissingColumn` even though both records would match. -/
theorem merge_missing_column_fatal_witness :
    ((∃ name, (some "missing" : Option String) = some name ∧
        name ∉ exDataset.columns) ∨
      (∃ fs f, (none : Option (List String)) = some fs ∧ f ∈ fs ∧
        f ∉ exDataset.columns)) ∧
    ∃ c, merge [exRec1, exRec2] exDataset (JoinSpec.single "code")
        (some "missing") none MissPolicy.skip
      = .error (MergeError.missingColumn c) ∧ c ∉ exDataset.columns :=
  ⟨Or.inl ⟨"missing", rfl, by decide⟩,
    merge_missing_column_fatal [exRec1, exRec2] exDataset (JoinSpec.single "code")
      (some "missing") none MissPolicy.skip (Or.inl ⟨"missing", rfl, by decide⟩)⟩

end ClaimTheorems2

section ClaimTheorems3

/-- A record at whose input position the merge loop's counter stands:
shared decomposition of a successful merge's entry list. -/
lemma merge_ok_entries {d : Dataset} {j : JoinSpec} {v : Option String}
    {ix : Option (List String)} {records : List GeometryRecord}
    {policy : MissPolicy} {es : List MergedEntry} {ws0 : List MergeWarning}
    (hgo : mergeGo d j v ix policy 0 records = .ok (es, ws0)) :
    es = (indexed 0 records).filterMap (fun q => entryFor d j v ix q.1 q.2) := by
  cases policy with
  | skip =>
    rw [mergeGo_skip_eq] at hgo
    exact (by simpa using hgo.symm : _ ∧ _).1
  | abort =>
    have hall := mergeGo_abort_ok 0 records hgo
    rw [mergeGo_allMatch MissPolicy.abort 0 records hall] at hgo
    exact (by simpa using hgo.symm : _ ∧ _).1

/-- C6 counterexample: with the skip policy and a first record whose code
"Z" has no dataset match, the 0-th output entry carries index 1, not 0:
the positional index follows the input position of the record, not the
output position of the entry. -/
theorem merge_positional_index_cex :
    merge [⟨5, [("code", Scalar.str "Z")]⟩, exRec2] exDataset
        (JoinSpec.single "code") (some "vote") none MissPolicy.skip =
      Except.ok ([⟨[Scalar.num 1], 2, some (Scalar.num 70), exRow2⟩],
        [MergeWarning.joinMiss 0]) ∧
    ([Scalar.num 1] : List Scalar) ≠ [Scalar.num 0] :=
  ⟨rfl, by decide⟩

lemma indexed_mem_inv (n : Nat) (recs : List GeometryRecord) :
    ∀ q ∈ indexed n recs, ∃ p, ∃ hp : p < recs.length,
      q = (n + p, recs.get ⟨p, hp⟩) := by
  induction recs generalizing n with
  | nil => simp [indexed]
  | cons r rest ih =>
    intro q hq
    rw [indexed_cons] at hq
    rcases List.mem_cons.mp hq with h1 | h1
    · exact ⟨0, by simp, by simpa using h1⟩
    · rcases ih (n + 1) q h1 with ⟨p, hp, hqe⟩
      refine ⟨p + 1, by simpa using hp, ?_⟩
      rw [hqe]
      simp [Nat.add_assoc, Nat.add_comm 1 p]

/-- C6 (amended): when `index_fields` is omitted, each entry of any
successful merge carries as index the input position of the record whose
join step produced it — for every call, the skip policy included; in
particular, whenever every record's join key matches (so none is
skipped), the i-th output entry's index equals i. -/
theorem merge_positional_index (records : List GeometryRecord) (d : Dataset)
    (j : JoinSpec) (v : Option String) (policy : MissPolicy)
    (es : List MergedEntry) (ws : List MergeWarning)
    (hok : merge records d j v none policy = .ok (es, ws)) :
    (∀ e ∈ es, ∃ p, ∃ hp : p < records.length,
      entryFor d j v none p (records.get ⟨p, hp⟩) = some e ∧
      e.index = [Scalar.num p]) ∧
    ((∀ r ∈ records, recMatches d j r = true) →
      ∀ i (hi : i < es.length), (es.get ⟨i, hi⟩).index = [Scalar.num i]) := by
  obtain ⟨hmc, ws0, hgo, hws⟩ := merge_ok_inv hok
  have hes := merge_ok_entries hgo
  constructor
  · intro e he
    rw [hes] at he
    rcases List.mem_filterMap.mp he with ⟨q, hq, hfq⟩
    rcases indexed_mem_inv 0 records q hq with ⟨p, hp, hqe⟩
    subst hqe
    refine ⟨p, hp, ?_, ?_⟩
    · simpa using hfq
    · rcases entryFor_eq_some hfq with ⟨k, row, hk, hrow, hemk⟩
      rw [hemk]
      simp [mkEntry, indexTuple]
  · intro hmatch i hi
    have hi0 : i < ((indexed 0 records).filterMap
        (fun p => entryFor d j v none p.1 p.2)).length := by
      rw [← hes]; exact hi
    have hlen : ((indexed 0 records).filterMap
        (fun p => entryFor d j v none p.1 p.2)).length = records.length :=
      filterMap_indexed_length 0 records hmatch
    have hi' : i < records.length := by rw [← hlen]; exact hi0
    have hsome := filterMap_indexed_get 0 records hmatch i hi0 hi'
    have hgeteq : es.get ⟨i, hi⟩ = ((indexed 0 records).filterMap
        (fun p => entryFor d j v none p.1 p.2)).get ⟨i, hi0⟩ :=
      List.get_of_eq hes ⟨i, hi⟩
    rcases entryFor_eq_some hsome.symm with ⟨k, row, hk, hrow, he⟩
    rw [hgeteq, he]
    simp [mkEntry, indexTuple]

/-- C6 witness for the amended claim: the skip-policy merge with an
unmatched leading record returns one entry, which carries index 1, the
input position of the record (code "B") that produced it. -/
theorem merge_positional_index_witness :
    merge [⟨5, [("code", Scalar.str "Z")]⟩, exRec2] exDataset
        (JoinSpec.single "code") (some "vote") none MissPolicy.skip =
      .ok ([⟨[Scalar.num 1], 2, some (Scalar.num 70), exRow2⟩],
        [MergeWarning.joinMiss 0]) ∧
    ((∀ e ∈ ([⟨[Scalar.num 1], 2, some (Scalar.num 70), exRow2⟩] :
        List MergedEntry),
      ∃ p, ∃ hp : p < ([⟨5, [("code", Scalar.str "Z")]⟩, exRec2] :
          List GeometryRecord).length,
        entryFor exDataset (JoinSpec.single "code") (some "vote") none p
          (([⟨5, [("code", Scalar.str "Z")]⟩, exRec2] :
            List GeometryRecord).get ⟨p, hp⟩) = some e ∧
        e.index = [Scalar.num p]) ∧
    ((∀ r ∈ ([⟨5, [("code", Scalar.str "Z")]⟩, exRec2] : List GeometryRecord),
        recMatches exDataset (JoinSpec.single "code") r = true) →
      ∀ i (hi : i < ([⟨[Scalar.num 1], 2, some (Scalar.num 70), exRow2⟩] :
          List MergedEntry).length),
        (([⟨[Scalar.num 1], 2, some (Scalar.num 70), exRow2⟩] :
          List MergedEntry).get ⟨i, hi⟩).index = [Scalar.num i])) :=
  ⟨rfl,
    merge_positional_index [⟨5, [("code", Scalar.str "Z")]⟩, exRec2] exDataset
      (JoinSpec.single "code") (some "vote") MissPolicy.skip
      [⟨[Scalar.num 1], 2, some (Scalar.num 70), exRow2⟩]
      [MergeWarning.joinMiss 0] rfl⟩

/-- Whether a record's join attribute is present and matched by exactly
one dataset row (join on the same name `a` on both sides). -/
def uniqueKeyMatch (d : Dataset) (a : String) (r : GeometryRecord) : Bool :=
  match lookupAttr r.attrs a with
  | none => false
  | some k =>
    (d.rows.filter (fun row => decide (lookupAttr row a = some k))).length == 1

/-- C7: round-trip — joining on an attribute present verbatim on both
sides, against a dataset with exactly one row per record key, every
output entry's value is the value-field entry of the dataset row whose
join key equals that record's join key. -/
theorem merge_round_trip_value (records : List GeometryRecord) (d : Dataset)
    (a vf : String) (ix : Option (List String)) (policy : MissPolicy)
    (hmc : missingColumns d (some vf) ix = [])
    (huniq : ∀ r ∈ records, uniqueKeyMatch d a r = true) :
    ∃ es ws, merge records d (JoinSpec.single a) (some vf) ix policy
        = .ok (es, ws) ∧
      es.length = records.length ∧
      ∀ i (hi : i < es.length) (hi' : i < records.length) (k : Scalar) (row : Attrs),
        lookupAttr (records.get ⟨i, hi'⟩).attrs a = some k →
        d.rows.filter (fun row => decide (lookupAttr row a = some k)) = [row] →
        (es.get ⟨i, hi⟩).value = lookupAttr row vf := by
  have hmatch : ∀ r ∈ records, recMatches d (JoinSpec.single a) r = true := by
    intro r hr
    have hu := huniq r hr
    unfold uniqueKeyMatch at hu
    cases hl : lookupAttr r.attrs a with
    | none => rw [hl] at hu; exact absurd hu (by simp)
    | some k =>
      rw [hl] at hu
      have hlen : (d.rows.filter
          (fun row => decide (lookupAttr row a = some k))).length = 1 := by
        simpa using hu
      rcases List.length_eq_one.mp hlen with ⟨row, hrow⟩
      unfold recMatches
      simp only [JoinSpec.recordKey, JoinSpec.datasetKey]
      rw [hl]
      show (findRow d.rows a k).isSome = true
      rw [findRow_eq_getLast, hrow]
      rfl
  refine ⟨_, _, merge_allMatch records policy hmc hmatch, ?_, ?_⟩
  · exact filterMap_indexed_length 0 records hmatch
  · intro i hi hi' k row hk hfil
    have hsome := filterMap_indexed_get 0 records hmatch i hi hi'
    have hrowsome : findRow d.rows (JoinSpec.single a).datasetKey k = some row := by
      rw [findRow_eq_getLast]
      simp only [JoinSpec.datasetKey]
      rw [hfil]
      rfl
    have hef := @entryFor_of d (JoinSpec.single a) (some vf) ix
      (records.get ⟨i, hi'⟩) k row (0 + i) hk hrowsome
    rw [hef] at hsome
    have hget := Option.some.inj hsome
    rw [hget]
    rfl

/-- C7 witness: the referendum example round-trips — entry values are
the vote shares of the rows with the matching codes. -/
theorem merge_round_trip_value_witness :
    (∀ r ∈ [exRec1, exRec2], uniqueKeyMatch exDataset "code" r = true) ∧
    ∃ es ws, merge [exRec1, exRec2] exDataset (JoinSpec.single "code")
        (some "vote") none MissPolicy.skip = .ok (es, ws) ∧
      es.length = ([exRec1, exRec2] : List GeometryRecord).length ∧
      ∀ i (hi : i < es.length)
        (hi' : i < ([exRec1, exRec2] : List GeometryRecord).length)
        (k : Scalar) (row : Attrs),
        lookupAttr (([exRec1, exRec2] : List GeometryRecord).get ⟨i, hi'⟩).attrs
          "code" = some k →
        exDataset.rows.filter
          (fun row => decide (lookupAttr row "code" = some k)) = [row] →
        (es.get ⟨i, hi⟩).value = lookupAttr row "vote" :=
  ⟨by decide,
    merge_round_trip_value [exRec1, exRec2] exDataset "code" "vote" none
      MissPolicy.skip (by decide) (by decide)⟩

end ClaimTheorems3

section ClaimTheorems4

/-- C8: invariant on any successful merge — the output geometries are
exactly the geometries of the matching input records, in input order:
each matching record's geometry appears exactly once and no other
geometry appears, so geometries are never duplicated and are dropped
only when the record's join key has no match. -/
theorem merge_geom_invariant (records : List GeometryRecord) (d : Dataset)
    (j : JoinSpec) (v : Option String) (ix : Option (List String))
    (policy : MissPolicy) (es : List MergedEntry) (ws : List MergeWarning)
    (hok : merge records d j v ix policy = .ok (es, ws)) :
    es.map MergedEntry.geom
      = (records.filter (recMatches d j)).map GeometryRecord.geom := by
  obtain ⟨hmc, ws0, hgo, hws⟩ := merge_ok_inv hok
  rw [merge_ok_entries hgo, filterMap_indexed_geom]

/-- C8 witness: in the merge with an unmatched leading record, the output
geometries are exactly those of the matching records. -/
theorem merge_geom_invariant_witness :
    merge [⟨5, [("code", Scalar.str "Z")]⟩, exRec2] exDataset
        (JoinSpec.single "code") (some "vote") none MissPolicy.skip =
      .ok ([⟨[Scalar.num 1], 2, some (Scalar.num 70), exRow2⟩],
        [MergeWarning.joinMiss 0]) ∧
    ([⟨[Scalar.num 1], 2, some (Scalar.num 70), exRow2⟩] :
        List MergedEntry).map MergedEntry.geom
      = (([⟨5, [("code", Scalar.str "Z")]⟩, exRec2] :
          List GeometryRecord).filter
          (recMatches exDataset (JoinSpec.single "code"))).map GeometryRecord.geom :=
  ⟨rfl,
    merge_geom_invariant [⟨5, [("code", Scalar.str "Z")]⟩, exRec2] exDataset
      (JoinSpec.single "code") (some "vote") none MissPolicy.skip
      [⟨[Scalar.num 1], 2, some (Scalar.num 70), exRow2⟩]
      [MergeWarning.joinMiss 0] rfl⟩

/-- C9: `merge` is a pure function of its arguments — two invocations on
equal records, dataset, join spec, value field, index fields and policy
produce equal results, entries and collected warnings included; in this
model the operation is a total function, so it touches no external state
and mutates none of its inputs by construction. -/
theorem merge_pure_deterministic (r1 r2 : List GeometryRecord) (d1 d2 : Dataset)
    (j1 j2 : JoinSpec) (v1 v2 : Option String) (ix1 ix2 : Option (List String))
    (p1 p2 : MissPolicy) (hr : r1 = r2) (hd : d1 = d2) (hj : j1 = j2)
    (hv : v1 = v2) (hix : ix1 = ix2) (hp : p1 = p2) :
    merge r1 d1 j1 v1 ix1 p1 = merge r2 d2 j2 v2 ix2 p2 := by
  rw [hr, hd, hj, hv, hix, hp]

/-- C9 witness: two invocations of the referendum example agree. -/
theorem merge_pure_deterministic_witness :
    merge [exRec1, exRec2] exDataset (JoinSpec.single "code") (some "vote")
        none MissPolicy.skip
      = merge [exRec1, exRec2] exDataset (JoinSpec.single "code") (some "vote")
        none MissPolicy.skip :=
  merge_pure_deterministic [exRec1, exRec2] [exRec1, exRec2] exDataset exDataset
    (JoinSpec.single "code") (JoinSpec.single "code") (some "vote") (some "vote")
    none none MissPolicy.skip MissPolicy.skip rfl rfl rfl rfl rfl rfl

/-- C10: whenever a successful merge's output contains two entries with
an identical index tuple, a `DuplicateIndex` warning naming that tuple is
among the collected warnings — the merge has not failed, and both
entries are in the returned output. -/
theorem merge_duplicate_index_warning (records : List GeometryRecord)
    (d : Dataset) (j : JoinSpec) (v : Option String) (ix : Option (List String))
    (policy : MissPolicy) (es : List MergedEntry) (ws : List MergeWarning)
    (hok : merge records d j v ix policy = .ok (es, ws))
    (i1 i2 : Nat) (h1 : i1 < es.length) (h2 : i2 < es.length) (hne : i1 ≠ i2)
    (hidx : (es.get ⟨i1, h1⟩).index = (es.get ⟨i2, h2⟩).index) :
    MergeWarning.duplicateIndex ((es.get ⟨i1, h1⟩).index) ∈ ws := by
  obtain ⟨hmc, ws0, hgo, hws⟩ := merge_ok_inv hok
  rw [hws, List.mem_append]
  right
  rw [List.mem_map]
  refine ⟨(es.get ⟨i1, h1⟩).index, ?_, rfl⟩
  have hl1 : i1 < (es.map MergedEntry.index).length := by simpa using h1
  have hl2 : i2 < (es.map MergedEntry.index).length := by simpa using h2
  have hm1 : (es.map MergedEntry.index).get ⟨i1, hl1⟩ = (es.get ⟨i1, h1⟩).index := by
    simp
  have hm2 : (es.map MergedEntry.index).get ⟨i2, hl2⟩ = (es.get ⟨i2, h2⟩).index := by
    simp
  rcases Nat.lt_or_ge i1 i2 with hlt | hge
  · have hmem := mem_dupIndexes (es.map MergedEntry.index) i1 i2 hl1 hl2 hlt
      (by rw [hm1, hm2]; exact hidx)
    rwa [hm1] at hmem
  · have hlt2 : i2 < i1 := Nat.lt_of_le_of_ne hge (fun hcon => hne hcon.symm)
    have hmem := mem_dupIndexes (es.map MergedEntry.index) i2 i1 hl2 hl1 hlt2
      (by rw [hm1, hm2]; exact hidx.symm)
    rw [hm2] at hmem
    rwa [hidx]

/-- A dataset whose two rows share the same "grp" value, so that
requesting the index field "grp" produces two entries with the same
index tuple. -/
def grpDataset : Dataset :=
  ⟨["code", "grp"],
   [[("code", Scalar.str "A"), ("grp", Scalar.str "X")],
    [("code", Scalar.str "B"), ("grp", Scalar.str "X")]]⟩

/-- The first entry of the duplicate-index example. -/
def grpEntryA : MergedEntry :=
  ⟨[Scalar.str "X"], 1, none, [("code", Scalar.str "A"), ("grp", Scalar.str "X")]⟩

/-- The second entry of the duplicate-index example. -/
def grpEntryB : MergedEntry :=
  ⟨[Scalar.str "X"], 2, none, [("code", Scalar.str "B"), ("grp", Scalar.str "X")]⟩

/-- C10 witness: indexing by "grp" gives both entries the index
tuple ["X"]; the merge still returns both entries and surfaces a
`DuplicateIndex` warning naming the tuple. -/
theorem merge_duplicate_index_warning_witness :
    merge [exRec1, exRec2] grpDataset (JoinSpec.single "code") none
        (some ["grp"]) MissPolicy.skip =
      .ok ([grpEntryA, grpEntryB], [MergeWarning.duplicateIndex [Scalar.str "X"]]) ∧
    MergeWarning.duplicateIndex ((([grpEntryA, grpEntryB] :
        List MergedEntry).get ⟨0, by decide⟩).index)
      ∈ [MergeWarning.duplicateIndex [Scalar.str "X"]] :=
  ⟨rfl,
    merge_duplicate_index_warning [exRec1, exRec2] grpDataset
      (JoinSpec.single "code") none (some ["grp"]) MissPolicy.skip
      [grpEntryA, grpEntryB] [MergeWarning.duplicateIndex [Scalar.str "X"]]
      rfl 0 1 (by decide) (by decide) (by decide) (by decide)⟩

end ClaimTheorems4
